import Mathlib

set_option maxHeartbeats 1000000
set_option maxRecDepth 10000

/-!
Formal model of the core of the rsstreetview library: the tile download
retry loop (src/download.rs, fetch_tile_with_retry), the tile-to-panorama
assembly (assemble_tiles), perspective view extraction from an
equirectangular panorama (src/views.rs, extract_view_from_panorama) and
the black-border trimming heuristic (src/utils.rs,
crop_bottom_and_right_black_border).

Modelling conventions:
- Rasters (image::DynamicImage) are a dimension pair, a pixel-format tag
  (the DynamicImage variant) and a total pixel function; pixel values
  outside the dimensions never influence the dimension-bounded scans and
  operations of the code under verification.
- Machine integers are Nat. u32 wrap-around is modelled explicitly
  (modulo 2 ^ 32) at the only reachable overflow sites: the crop-end
  additions and the crop-extent subtractions of view extraction, whose
  operands can both approach u32::MAX. Elsewhere (tile offsets bounded by
  the 128-tile grid, retry counters bounded by 7) overflow is unreachable
  and plain Nat arithmetic is used.
- Rust f64 arithmetic in view extraction is modelled by exact rationals;
  the saturating f64-to-u32 cast is Int.floor clamped to the u32 range.
  Where the real pipeline rounds twice (the crop span computations), the
  truncated u32 of the program can be one below the exact rational, so
  theorems assert about those quantities only conclusions stable under a
  one-unit slack, or exact values at inputs where the f64 computation is
  exact or was checked to agree with it.
- The network transport is an oracle giving, per tile and per attempt
  number, the classified outcome of that attempt (connection failure,
  body-read failure, decode failure, or decoded image bytes).
- futures buffer_unordered delivers tile results in an arbitrary
  completion order; downloads are therefore parameterised by an arbitrary
  permutation of the enumerated tile requests.
-/

namespace RsStreetView

/-- One RGB pixel. Alpha presence is tracked by the PixelFormat tag. -/
structure Rgb where
  r : Nat
  g : Nat
  b : Nat
deriving DecidableEq

/-- Pixel format of a raster (the image::DynamicImage variant). -/
inductive PixelFormat where
  | rgb8
  | rgba8
  | luma8
deriving DecidableEq

/-- A raster: dimensions, pixel format, and a total pixel function. -/
structure Img where
  width : Nat
  height : Nat
  format : PixelFormat
  pix : Nat → Nat → Rgb

/-- Tile pixel width, src/download.rs TILE_WIDTH. -/
def TILE_WIDTH : Nat := 512

/-- Tile pixel height, src/download.rs TILE_HEIGHT. -/
def TILE_HEIGHT : Nat := 512

/-- Default retry ceiling, src/download.rs DEFAULT_MAX_RETRIES. -/
def DEFAULT_MAX_RETRIES : Nat := 6

/-- Luminance threshold, src/utils.rs BLACK_LUMINANCE_THRESHOLD. -/
def BLACK_LUMINANCE_THRESHOLD : Nat := 4

/-- Largest u32 value. -/
def U32_MAX : Nat := 4294967295

/-- u32 addition with wrap-around (Rust release-mode overflow semantics). -/
def wadd32 (a b : Nat) : Nat := (a + b) % 4294967296

/-- u32 subtraction with wrap-around (Rust release-mode overflow
semantics), intended for operands below 2 ^ 32. -/
def wsub32 (a b : Nat) : Nat := (a + 4294967296 - b) % 4294967296

/-- Rust f64-to-u32 cast: truncate toward zero, saturating at the u32
range boundaries. The f64 quantities of view extraction are modelled as
exact rationals. -/
def f64toU32 (q : ℚ) : Nat := min (Int.toNat (Int.floor q)) U32_MAX

/-- Luminance of one pixel as computed by image::DynamicImage::to_luma8
(fixed-point BT.709 weights of the image crate). -/
def lumaOf (c : Rgb) : Nat := (2126 * c.r + 7152 * c.g + 722 * c.b) / 10000

/-- image::DynamicImage::crop_imm: clamp the rectangle to the raster
bounds and take the corresponding view, preserving the pixel format. -/
def cropImm (img : Img) (x y w h : Nat) : Img :=
  let x0 := min x img.width
  let y0 := min y img.height
  { width := min w (img.width - x0)
    height := min h (img.height - y0)
    format := img.format
    pix := fun i j => img.pix (x0 + i) (y0 + j) }

/-- image::DynamicImage::new_rgb8: an all-black RGB raster. -/
def newRgb8 (w h : Nat) : Img :=
  { width := w, height := h, format := .rgb8, pix := fun _ _ => ⟨0, 0, 0⟩ }

/-- image::DynamicImage::to_rgb8 wrapped back into a DynamicImage:
drop any alpha, yielding the fixed 3-channel format. -/
def toRgb8 (img : Img) : Img :=
  { img with format := .rgb8 }

/-- image::imageops::resize with FilterType::Lanczos3. The output buffer
is w times h in RGBA format; the floating-point resampling kernel itself
is outside the integer model, so output pixel contents are abstracted (no
verified claim depends on them), while the output dimensions and pixel
format, which the claims do depend on, are modelled exactly. -/
def resizeLanczos3 (src : Img) (w h : Nat) : Img :=
  { width := w, height := h, format := .rgba8, pix := fun _ _ => src.pix 0 0 }

/-- src/error.rs StreetViewError, restricted to the variants reachable
from the code under verification. -/
inductive StreetViewError where
  | httpError
  | parseError (msg : String)
  | imageError
  | tileDownloadFailed (retries : Nat)
deriving DecidableEq

/-- Classified outcome of one tile-fetch attempt: client.get().send()
failed, response.bytes() failed, image::load_from_memory failed, or the
bytes decoded into a raster. -/
inductive AttemptOutcome where
  | sendErr
  | bodyErr
  | decodeErr
  | bytesOk (img : Img)

/-- Whether an attempt outcome is one of the three failure classes. -/
def AttemptOutcome.fails : AttemptOutcome → Bool
  | .bytesOk _ => false
  | _ => true

/-- The error fetch_tile_with_retry returns when the retry ceiling is hit
on an attempt with the given outcome (meaningful for failing outcomes
only; the bytesOk arm is never reached under the fails hypothesis). -/
def errorFor (maxRetries : Nat) : AttemptOutcome → StreetViewError
  | .sendErr => .tileDownloadFailed maxRetries
  | .bodyErr => .httpError
  | .decodeErr => .imageError
  | .bytesOk _ => .httpError

/-- src/types.rs TileInfo. -/
structure TileInfo where
  x : Nat
  y : Nat
  url : String

/-- src/types.rs Tile. -/
structure Tile where
  x : Nat
  y : Nat
  image : Img

/-- src/download.rs get_width_and_height_from_zoom. -/
def get_width_and_height_from_zoom (zoom : Nat) : Nat × Nat :=
  (2 ^ zoom, 2 ^ (zoom - 1))

/-- src/download.rs make_download_url. -/
def make_download_url (panoId : String) (zoom x y : Nat) : String :=
  "https://cbk0.google.com/cbk?output=tile&panoid=" ++ panoId ++
    "&zoom=" ++ toString zoom ++ "&x=" ++ toString x ++ "&y=" ++ toString y

/-- src/download.rs iter_tile_info: row-major enumeration of the grid. -/
def iter_tile_info (panoId : String) (zoom : Nat) : List TileInfo :=
  let wh := get_width_and_height_from_zoom zoom
  (List.range wh.2).flatMap fun y =>
    (List.range wh.1).map fun x => ⟨x, y, make_download_url panoId zoom x y⟩

/-- The loop of src/download.rs fetch_tile_with_retry, entered with the
given value of the retries counter; net gives the classified outcome of
the attempt made while the counter holds a given value. -/
def fetchGo (net : Nat → AttemptOutcome) (ti : TileInfo) (maxRetries retries : Nat) :
    Except StreetViewError Tile :=
  match net retries with
  | .bytesOk img => .ok ⟨ti.x, ti.y, img⟩
  | .decodeErr =>
      if h : maxRetries ≤ retries then .error .imageError
      else fetchGo net ti maxRetries (retries + 1)
  | .bodyErr =>
      if h : maxRetries ≤ retries then .error .httpError
      else fetchGo net ti maxRetries (retries + 1)
  | .sendErr =>
      if h : maxRetries ≤ retries then .error (.tileDownloadFailed maxRetries)
      else fetchGo net ti maxRetries (retries + 1)
termination_by maxRetries + 1 - retries
decreasing_by all_goals omega

/-- src/download.rs fetch_tile_with_retry: the loop starting at retries
equal to zero. -/
def fetch_tile_with_retry (net : Nat → AttemptOutcome) (ti : TileInfo) (maxRetries : Nat) :
    Except StreetViewError Tile :=
  fetchGo net ti maxRetries 0

/-- Number of fetch attempts performed by the fetch_tile_with_retry loop
entered with the given retries counter value (instrumentation of the same
loop). -/
def fetchAttemptsGo (net : Nat → AttemptOutcome) (maxRetries retries : Nat) : Nat :=
  match net retries with
  | .bytesOk _ => 1
  | .decodeErr =>
      if h : maxRetries ≤ retries then 1
      else 1 + fetchAttemptsGo net maxRetries (retries + 1)
  | .bodyErr =>
      if h : maxRetries ≤ retries then 1
      else 1 + fetchAttemptsGo net maxRetries (retries + 1)
  | .sendErr =>
      if h : maxRetries ≤ retries then 1
      else 1 + fetchAttemptsGo net maxRetries (retries + 1)
termination_by maxRetries + 1 - retries
decreasing_by all_goals omega

/-- Total number of attempts performed by fetch_tile_with_retry. -/
def fetchAttempts (net : Nat → AttemptOutcome) (maxRetries : Nat) : Nat :=
  fetchAttemptsGo net maxRetries 0

/-- Vec of Result collected into Result of Vec: first error wins
(src/download.rs download_tiles, final collect). -/
def collectResults : List (Except StreetViewError Tile) → Except StreetViewError (List Tile)
  | [] => .ok []
  | .error e :: _ => .error e
  | .ok t :: rs =>
    match collectResults rs with
    | .error e => .error e
    | .ok ts => .ok (t :: ts)

/-- src/download.rs download_tiles. The net oracle is indexed by tile
coordinates and attempt number; order is the completion order produced by
buffer_unordered, an arbitrary permutation of iter_tile_info. -/
def download_tiles (net : Nat → Nat → Nat → AttemptOutcome) (order : List TileInfo) :
    Except StreetViewError (List Tile) :=
  collectResults (order.map fun ti => fetch_tile_with_retry (net ti.x ti.y) ti DEFAULT_MAX_RETRIES)

/-- The pixel-copy loop of image GenericImage::copy_from: overwrite the
rectangle at offset (x, y) with the tile raster. -/
def pasteImg (pano tile : Img) (x y : Nat) : Img :=
  { pano with
    pix := fun i j =>
      if x ≤ i ∧ i < x + tile.width ∧ y ≤ j ∧ j < y + tile.height then
        tile.pix (i - x) (j - y)
      else pano.pix i j }

/-- image GenericImage::copy_from: bounds check, then paste the tile
raster at the given pixel offset. -/
def copyFrom (pano tile : Img) (x y : Nat) : Except StreetViewError Img :=
  if pano.width < tile.width + x ∨ pano.height < tile.height + y then
    .error .imageError
  else
    .ok (pasteImg pano tile x y)

/-- The copy_from bounds check, as a predicate on the target dimensions:
the tile raster placed at its grid offset stays inside a w times h
panorama. -/
def fits (w h : Nat) (t : Tile) : Prop :=
  t.image.width + t.x * TILE_WIDTH ≤ w ∧ t.image.height + t.y * TILE_HEIGHT ≤ h

/-- The paste loop of src/download.rs assemble_tiles, with the error
propagation of the question-mark operator. -/
def assembleGo : List Tile → Img → Except StreetViewError Img
  | [], pano => .ok pano
  | t :: ts, pano =>
    match copyFrom pano t.image (t.x * TILE_WIDTH) (t.y * TILE_HEIGHT) with
    | .error e => .error e
    | .ok p => assembleGo ts p

/-- src/download.rs assemble_tiles. -/
def assemble_tiles (tiles : List Tile) (zoom : Nat) : Except StreetViewError Img :=
  let wh := get_width_and_height_from_zoom zoom
  assembleGo tiles (newRgb8 (wh.1 * TILE_WIDTH) (wh.2 * TILE_HEIGHT))

/-- src/download.rs download_panorama: zoom domain check, download all
tiles, then assemble. -/
def download_panorama (net : Nat → Nat → Nat → AttemptOutcome) (order : List TileInfo)
    (zoom : Nat) : Except StreetViewError Img :=
  if zoom < 1 ∨ 7 < zoom then
    .error (.parseError "Zoom level must be between 1 and 7")
  else
    match download_tiles net order with
    | .error e => .error e
    | .ok tiles => assemble_tiles tiles zoom

/-- src/views.rs ViewConfig. -/
structure ViewConfig where
  heading : Nat
  fov : Nat
  pitch : Int
  size : Option (Nat × Nat)
  zoom : Nat

/-- src/views.rs pixels_per_degree_h. -/
def pixelsPerDegreeH (panoWidth : Nat) : ℚ := (panoWidth : ℚ) / 360

/-- src/views.rs pixels_per_degree_v. -/
def pixelsPerDegreeV (panoHeight : Nat) : ℚ := (panoHeight : ℚ) / 180

/-- src/views.rs center_x. -/
def centerX (panoWidth : Nat) (cfg : ViewConfig) : Nat :=
  f64toU32 ((cfg.heading : ℚ) / 360 * (panoWidth : ℚ))

/-- src/views.rs center_y. -/
def centerY (panoHeight : Nat) (cfg : ViewConfig) : Nat :=
  f64toU32 ((90 - (cfg.pitch : ℚ)) / 180 * (panoHeight : ℚ))

/-- src/views.rs aspect_ratio: target width over target height when a
size is requested, square otherwise. -/
def aspect (cfg : ViewConfig) : ℚ :=
  match cfg.size with
  | some wh => (wh.1 : ℚ) / (wh.2 : ℚ)
  | none => 1

/-- src/views.rs half_fov_h. -/
def halfFovH (cfg : ViewConfig) : ℚ := (cfg.fov : ℚ) / 2

/-- src/views.rs half_fov_v. -/
def halfFovV (cfg : ViewConfig) : ℚ := halfFovH cfg / aspect cfg

/-- src/views.rs crop_width. Exact-rational idealization of the doubly
rounded f64 product (width / 360, then times the full field of view):
the two f64 roundings can make the truncated u32 of the real program one
below this definition's value (width 52 at fov 90 gives 12 in f64 where
the exact rational is 13). Theorems therefore assert about this quantity
only conclusions stable under that one-unit slack, or exact values at
inputs where the f64 computation is itself exact or was checked to agree. -/
def cropWidthPx (panoWidth : Nat) (cfg : ViewConfig) : Nat :=
  f64toU32 (halfFovH cfg * 2 * pixelsPerDegreeH panoWidth)

/-- src/views.rs crop_height. Exact-rational idealization of the doubly
rounded f64 product, with the same one-unit slack toward the real
program as cropWidthPx (height 52 at fov 90 gives 25 in f64 where the
exact rational is 26); theorems assert only slack-stable conclusions or
checked-exact values. -/
def cropHeightPx (panoHeight : Nat) (cfg : ViewConfig) : Nat :=
  f64toU32 (halfFovV cfg * 2 * pixelsPerDegreeV panoHeight)

/-- src/views.rs x_start: center_x.saturating_sub(half_width); Nat
subtraction is exactly u32 saturating_sub. -/
def xStart (panoWidth : Nat) (cfg : ViewConfig) : Nat :=
  centerX panoWidth cfg - cropWidthPx panoWidth cfg / 2

/-- src/views.rs y_start. -/
def yStart (panoHeight : Nat) (cfg : ViewConfig) : Nat :=
  centerY panoHeight cfg - cropHeightPx panoHeight cfg / 2

/-- src/views.rs x_end: (x_start + crop_width).min(pano_width), with the
u32 addition wrap made explicit. -/
def xEnd (panoWidth : Nat) (cfg : ViewConfig) : Nat :=
  min (wadd32 (xStart panoWidth cfg) (cropWidthPx panoWidth cfg)) panoWidth

/-- src/views.rs y_end. -/
def yEnd (panoHeight : Nat) (cfg : ViewConfig) : Nat :=
  min (wadd32 (yStart panoHeight cfg) (cropHeightPx panoHeight cfg)) panoHeight

/-- src/views.rs extract_view_from_panorama. The Rust signature returns a
Result, but both return sites wrap Ok, so the image is returned directly. -/
def extract_view_from_panorama (pano : Img) (cfg : ViewConfig) : Img :=
  let xs := xStart pano.width cfg
  let ys := yStart pano.height cfg
  let xe := xEnd pano.width cfg
  let ye := yEnd pano.height cfg
  let cropped := cropImm pano xs ys (wsub32 xe xs) (wsub32 ye ys)
  match cfg.size with
  | some wh => toRgb8 (resizeLanczos3 cropped wh.1 wh.2)
  | none => cropped

/-- Whether a row of the raster contains an above-threshold pixel
(src/utils.rs, the inner x loop of the bottom scan). -/
def rowHasContent (img : Img) (y : Nat) : Bool :=
  (List.range img.width).any fun x =>
    decide (BLACK_LUMINANCE_THRESHOLD < lumaOf (img.pix x y))

/-- Whether a column contains an above-threshold pixel among the rows
strictly below bound (src/utils.rs, the inner y loop of the right scan,
which only inspects rows below bottom_crop). -/
def colHasContent (img : Img) (bound x : Nat) : Bool :=
  (List.range bound).any fun y =>
    decide (BLACK_LUMINANCE_THRESHOLD < lumaOf (img.pix x y))

/-- The downward scan shared by both border scans of src/utils.rs: walk
indices n-1, n-2, ..., 0, return i+1 for the first index i satisfying p,
and the default d when none does. -/
def scanDown (p : Nat → Bool) (d : Nat) : Nat → Nat
  | 0 => d
  | n + 1 => if p n then n + 1 else scanDown p d n

/-- The bottom-crop validation loop of src/utils.rs: every row with index
in the interval from lo up to (excluding) hi is entirely at or below the
threshold. -/
def allRowsDarkBelow (img : Img) (lo hi : Nat) : Bool :=
  (List.range' lo (hi - lo)).all fun y => !rowHasContent img y

/-- The right-crop validation loop of src/utils.rs: every column with
index in the interval from lo up to (excluding) hi is entirely at or
below the threshold within rows below bound. -/
def allColsDarkRight (img : Img) (bound lo hi : Nat) : Bool :=
  (List.range' lo (hi - lo)).all fun x => !colHasContent img bound x

/-- bottom_crop of src/utils.rs: the upward scan from the last row,
followed by the validate-or-reset step. -/
def bottomCropOf (img : Img) : Nat :=
  let bc := scanDown (rowHasContent img) img.height img.height
  if bc < img.height then
    if allRowsDarkBelow img bc img.height then bc else img.height
  else bc

/-- right_crop of src/utils.rs: the leftward scan from the last column
restricted to rows below bottom_crop, followed by the validate-or-reset
step. -/
def rightCropOf (img : Img) (bottomCrop : Nat) : Nat :=
  let rc := scanDown (colHasContent img bottomCrop) img.width img.width
  if rc < img.width then
    if allColsDarkRight img bottomCrop rc img.width then rc else img.width
  else rc

/-- src/utils.rs crop_bottom_and_right_black_border. -/
def crop_bottom_and_right_black_border (img : Img) : Img :=
  let bc := bottomCropOf img
  let rc := rightCropOf img bc
  if bc = img.height ∧ rc = img.width then img
  else cropImm img 0 0 rc bc

/-! Theorems. -/

lemma fetchGo_step (net : Nat → AttemptOutcome) (ti : TileInfo) (m r : Nat) :
    fetchGo net ti m r =
      match net r with
      | .bytesOk img => .ok ⟨ti.x, ti.y, img⟩
      | .decodeErr => if m ≤ r then .error .imageError else fetchGo net ti m (r + 1)
      | .bodyErr => if m ≤ r then .error .httpError else fetchGo net ti m (r + 1)
      | .sendErr => if m ≤ r then .error (.tileDownloadFailed m) else fetchGo net ti m (r + 1) := by
  rw [fetchGo]
  rcases net r <;> simp

lemma fetchAttemptsGo_step (net : Nat → AttemptOutcome) (m r : Nat) :
    fetchAttemptsGo net m r =
      match net r with
      | .bytesOk _ => 1
      | .decodeErr => if m ≤ r then 1 else 1 + fetchAttemptsGo net m (r + 1)
      | .bodyErr => if m ≤ r then 1 else 1 + fetchAttemptsGo net m (r + 1)
      | .sendErr => if m ≤ r then 1 else 1 + fetchAttemptsGo net m (r + 1) := by
  rw [fetchAttemptsGo]
  rcases net r <;> simp

lemma fetchGo_all_fail (net : Nat → AttemptOutcome) (ti : TileInfo) (m : Nat) :
    ∀ k r, m - r = k → r ≤ m → (∀ i, r ≤ i → i ≤ m → (net i).fails = true) →
      fetchGo net ti m r = .error (errorFor m (net m)) ∧
        fetchAttemptsGo net m r = m + 1 - r := by
  intro k
  induction k with
  | zero =>
    intro r hk hrm hfail
    have hr : r = m := by omega
    subst hr
    have hf := hfail r le_rfl le_rfl
    rw [fetchGo_step, fetchAttemptsGo_step]
    cases hnet : net r with
    | bytesOk img => rw [hnet] at hf; simp [AttemptOutcome.fails] at hf
    | sendErr => simp [errorFor, hnet]
    | bodyErr => simp [errorFor, hnet]
    | decodeErr => simp [errorFor, hnet]
  | succ k ih =>
    intro r hk hrm hfail
    have hrlt : r < m := by omega
    have hf := hfail r le_rfl (by omega)
    have ihr := ih (r + 1) (by omega) (by omega) (fun i h1 h2 => hfail i (by omega) h2)
    rw [fetchGo_step, fetchAttemptsGo_step]
    cases hnet : net r with
    | bytesOk img => rw [hnet] at hf; simp [AttemptOutcome.fails] at hf
    | sendErr =>
      simp only [Nat.not_le.mpr hrlt, if_false, ihr.1, ihr.2]
      refine ⟨trivial, ?_⟩
      show 1 + (m + 1 - (r + 1)) = m + 1 - r
      omega
    | bodyErr =>
      simp only [Nat.not_le.mpr hrlt, if_false, ihr.1, ihr.2]
      refine ⟨trivial, ?_⟩
      show 1 + (m + 1 - (r + 1)) = m + 1 - r
      omega
    | decodeErr =>
      simp only [Nat.not_le.mpr hrlt, if_false, ihr.1, ihr.2]
      refine ⟨trivial, ?_⟩
      show 1 + (m + 1 - (r + 1)) = m + 1 - r
      omega

lemma fetchGo_success_after (net : Nat → AttemptOutcome) (ti : TileInfo) (m : Nat) :
    ∀ N r img, (∀ i, r ≤ i → i < r + N → (net i).fails = true) →
      net (r + N) = .bytesOk img → r + N ≤ m →
      fetchGo net ti m r = .ok ⟨ti.x, ti.y, img⟩ ∧ fetchAttemptsGo net m r = N + 1 := by
  intro N
  induction N with
  | zero =>
    intro r img _ hok _
    rw [fetchGo_step, fetchAttemptsGo_step]
    rw [Nat.add_zero] at hok
    simp [hok]
  | succ N ih =>
    intro r img hfail hok hle
    have hrlt : r < m := by omega
    have hf := hfail r le_rfl (by omega)
    have ihr := ih (r + 1) img (fun i h1 h2 => hfail i (by omega) (by omega))
      (by rw [show r + 1 + N = r + (N + 1) by omega]; exact hok) (by omega)
    rw [fetchGo_step, fetchAttemptsGo_step]
    cases hnet : net r with
    | bytesOk img2 => rw [hnet] at hf; simp [AttemptOutcome.fails] at hf
    | sendErr =>
      simp only [Nat.not_le.mpr hrlt, if_false, ihr.1, ihr.2]
      refine ⟨trivial, ?_⟩
      show 1 + (N + 1) = N + 1 + 1
      omega
    | bodyErr =>
      simp only [Nat.not_le.mpr hrlt, if_false, ihr.1, ihr.2]
      refine ⟨trivial, ?_⟩
      show 1 + (N + 1) = N + 1 + 1
      omega
    | decodeErr =>
      simp only [Nat.not_le.mpr hrlt, if_false, ihr.1, ihr.2]
      refine ⟨trivial, ?_⟩
      show 1 + (N + 1) = N + 1 + 1
      omega

/-- C1: if every attempt fails, fetch_tile_with_retry returns a terminal
error carrying the classification of the last observed failure after
exactly 7 total attempts (6 retries); if transport fails exactly N times
with N below 6 and the following attempt yields decodable bytes, it
returns the decoded tile after exactly N plus 1 attempts. -/
theorem c1_fetch_tile_retry_policy (net : Nat → AttemptOutcome) (ti : TileInfo)
    (N : Nat) (img : Img) :
    ((∀ i, i ≤ DEFAULT_MAX_RETRIES → (net i).fails = true) →
      fetch_tile_with_retry net ti DEFAULT_MAX_RETRIES
          = .error (errorFor DEFAULT_MAX_RETRIES (net DEFAULT_MAX_RETRIES)) ∧
        fetchAttempts net DEFAULT_MAX_RETRIES = 7) ∧
    (N < DEFAULT_MAX_RETRIES → (∀ i, i < N → net i = .sendErr) →
      net N = .bytesOk img →
      fetch_tile_with_retry net ti DEFAULT_MAX_RETRIES = .ok ⟨ti.x, ti.y, img⟩ ∧
        fetchAttempts net DEFAULT_MAX_RETRIES = N + 1) := by
  constructor
  · intro hfail
    have h := fetchGo_all_fail net ti DEFAULT_MAX_RETRIES DEFAULT_MAX_RETRIES 0 rfl
      (Nat.zero_le _) (fun i _ h2 => hfail i h2)
    exact ⟨h.1, h.2⟩
  · intro hN hsend hok
    have h := fetchGo_success_after net ti DEFAULT_MAX_RETRIES N 0 img
      (fun i _ h2 => by rw [hsend i (by omega)]; rfl)
      (by rw [Nat.zero_add]; exact hok) (by omega)
    exact ⟨h.1, h.2⟩

theorem c1_fetch_tile_retry_policy_witness :
    fetch_tile_with_retry (fun _ => .sendErr) ⟨0, 0, "u"⟩ DEFAULT_MAX_RETRIES
        = .error (.tileDownloadFailed 6) ∧
    fetchAttempts (fun _ => .sendErr) DEFAULT_MAX_RETRIES = 7 ∧
    fetch_tile_with_retry
        (fun i => if i < 2 then .sendErr else .bytesOk (newRgb8 512 512))
        ⟨0, 0, "u"⟩ DEFAULT_MAX_RETRIES = .ok ⟨0, 0, newRgb8 512 512⟩ ∧
    fetchAttempts (fun i => if i < 2 then .sendErr else .bytesOk (newRgb8 512 512))
        DEFAULT_MAX_RETRIES = 3 := by
  have h1 := (c1_fetch_tile_retry_policy (fun _ => .sendErr) ⟨0, 0, "u"⟩ 0
    (newRgb8 512 512)).1 (fun i _ => rfl)
  have h2 := (c1_fetch_tile_retry_policy
    (fun i => if i < 2 then .sendErr else .bytesOk (newRgb8 512 512)) ⟨0, 0, "u"⟩ 2
    (newRgb8 512 512)).2 (by decide)
    (fun i hi => by simp only [if_pos hi]) (by norm_num)
  exact ⟨h1.1, h1.2, h2.1, h2.2⟩

lemma Img.ext' {a b : Img} (hw : a.width = b.width) (hh : a.height = b.height)
    (hf : a.format = b.format) (hp : a.pix = b.pix) : a = b := by
  cases a
  cases b
  rw [Img.mk.injEq]
  exact ⟨hw, hh, hf, hp⟩

lemma scanDown_le (p : Nat → Bool) (d : Nat) :
    ∀ n, scanDown p d n ≤ n ∨ scanDown p d n = d := by
  intro n
  induction n with
  | zero => exact Or.inr rfl
  | succ n ih =>
    rw [scanDown]
    by_cases h : p n = true
    · rw [if_pos h]
      exact Or.inl le_rfl
    · rw [if_neg h]
      rcases ih with h1 | h1
      · exact Or.inl (by omega)
      · exact Or.inr h1

lemma scanDown_false_below (p : Nat → Bool) (d : Nat) :
    ∀ n y, scanDown p d n ≤ y → y < n → p y = false := by
  intro n
  induction n with
  | zero => intro y _ hy; omega
  | succ n ih =>
    intro y hle hy
    rw [scanDown] at hle
    by_cases h : p n = true
    · rw [if_pos h] at hle
      omega
    · rw [if_neg h] at hle
      by_cases hyn : y = n
      · subst hyn
        simpa using h
      · exact ih y hle (by omega)

lemma scanDown_all_false (p : Nat → Bool) (d : Nat) :
    ∀ n, (∀ y, y < n → p y = false) → scanDown p d n = d := by
  intro n
  induction n with
  | zero => intro _; rfl
  | succ n ih =>
    intro hall
    rw [scanDown, if_neg (by simp [hall n (by omega)]), ih (fun y hy => hall y (by omega))]

lemma scanDown_found (p : Nat → Bool) (d : Nat) :
    ∀ n r, p r = true → r < n → (∀ y, r < y → y < n → p y = false) →
      scanDown p d n = r + 1 := by
  intro n
  induction n with
  | zero => intro r _ hr _; omega
  | succ n ih =>
    intro r hp hr hdark
    rw [scanDown]
    by_cases hn : p n = true
    · rw [if_pos hn]
      by_cases hrn : r = n
      · rw [hrn]
      · rw [hdark n (by omega) (by omega)] at hn
        exact absurd hn (by simp)
    · rw [if_neg hn]
      have hrn : r ≠ n := fun h => hn (h ▸ hp)
      exact ih r hp (by omega) (fun y h1 h2 => hdark y h1 (by omega))

lemma scanDown_cases (p : Nat → Bool) (d : Nat) :
    ∀ n, (∀ y, y < n → p y = false) ∨
      (1 ≤ scanDown p d n ∧ scanDown p d n ≤ n ∧ p (scanDown p d n - 1) = true) := by
  intro n
  induction n with
  | zero => exact Or.inl (fun y hy => by omega)
  | succ n ih =>
    by_cases hn : p n = true
    · refine Or.inr ?_
      rw [scanDown, if_pos hn]
      simpa using hn
    · rcases ih with h | h
      · refine Or.inl ?_
        intro y hy
        by_cases hyn : y = n
        · subst hyn; simpa using hn
        · exact h y (by omega)
      · refine Or.inr ?_
        rw [scanDown, if_neg hn]
        exact ⟨h.1, by omega, h.2.2⟩

lemma rowHasContent_iff (img : Img) (y : Nat) :
    rowHasContent img y = true ↔
      ∃ x, x < img.width ∧ BLACK_LUMINANCE_THRESHOLD < lumaOf (img.pix x y) := by
  simp [rowHasContent, List.any_eq_true, List.mem_range]

lemma colHasContent_iff (img : Img) (bound x : Nat) :
    colHasContent img bound x = true ↔
      ∃ y, y < bound ∧ BLACK_LUMINANCE_THRESHOLD < lumaOf (img.pix x y) := by
  simp [colHasContent, List.any_eq_true, List.mem_range]

lemma bottomCropOf_eq (img : Img) :
    bottomCropOf img = scanDown (rowHasContent img) img.height img.height := by
  unfold bottomCropOf
  by_cases h : scanDown (rowHasContent img) img.height img.height < img.height
  · rw [if_pos h, if_pos]
    rw [allRowsDarkBelow, List.all_eq_true]
    intro y hy
    rw [List.mem_range'_1] at hy
    have := scanDown_false_below (rowHasContent img) img.height img.height y hy.1 (by omega)
    simp [this]
  · rw [if_neg h]

lemma rightCropOf_eq (img : Img) (bc : Nat) :
    rightCropOf img bc = scanDown (colHasContent img bc) img.width img.width := by
  unfold rightCropOf
  by_cases h : scanDown (colHasContent img bc) img.width img.width < img.width
  · rw [if_pos h, if_pos]
    rw [allColsDarkRight, List.all_eq_true]
    intro x hx
    rw [List.mem_range'_1] at hx
    have := scanDown_false_below (colHasContent img bc) img.width img.width x hx.1 (by omega)
    simp [this]
  · rw [if_neg h]

lemma bottomCropOf_le (img : Img) : bottomCropOf img ≤ img.height := by
  rw [bottomCropOf_eq]
  rcases scanDown_le (rowHasContent img) img.height img.height with h | h
  · exact h
  · omega

lemma rightCropOf_le (img : Img) (bc : Nat) : rightCropOf img bc ≤ img.width := by
  rw [rightCropOf_eq]
  rcases scanDown_le (colHasContent img bc) img.width img.width with h | h
  · exact h
  · omega

lemma bottomCropOf_found (img : Img) (r : Nat) (hr : r < img.height)
    (hbright : rowHasContent img r = true)
    (hdark : ∀ y, r < y → y < img.height → rowHasContent img y = false) :
    bottomCropOf img = r + 1 := by
  rw [bottomCropOf_eq]
  exact scanDown_found (rowHasContent img) img.height img.height r hbright hr hdark

lemma trim_height_eq (img : Img) (r : Nat) (hr : r < img.height)
    (hbright : rowHasContent img r = true)
    (hdark : ∀ y, r < y → y < img.height → rowHasContent img y = false) :
    (crop_bottom_and_right_black_border img).height = r + 1 := by
  have hbc := bottomCropOf_found img r hr hbright hdark
  unfold crop_bottom_and_right_black_border
  by_cases hc : bottomCropOf img = img.height ∧
      rightCropOf img (bottomCropOf img) = img.width
  · rw [if_pos hc]
    omega
  · rw [if_neg hc]
    have hrc := rightCropOf_le img (bottomCropOf img)
    simp only [cropImm, hbc]
    omega

lemma rowHasContent_false (img : Img) (y : Nat)
    (h : ∀ x, x < img.width → lumaOf (img.pix x y) ≤ BLACK_LUMINANCE_THRESHOLD) :
    rowHasContent img y = false := by
  rw [← Bool.not_eq_true, rowHasContent_iff]
  rintro ⟨x, hx, hlt⟩
  exact absurd hlt (not_lt.mpr (h x hx))

lemma bottomCropOf_full (img : Img)
    (h : rowHasContent img (img.height - 1) = true ∨
      ∀ y, y < img.height → rowHasContent img y = false) :
    bottomCropOf img = img.height := by
  rw [bottomCropOf_eq]
  rcases h with h | h
  · rcases Nat.eq_zero_or_pos img.height with h0 | h0
    · rw [h0]; rfl
    · have := scanDown_found (rowHasContent img) img.height img.height
        (img.height - 1) h (by omega) (fun y h1 h2 => by omega)
      omega
  · exact scanDown_all_false _ _ _ h

lemma rightCropOf_full (img : Img) (bc : Nat)
    (h : colHasContent img bc (img.width - 1) = true ∨
      ∀ x, x < img.width → colHasContent img bc x = false) :
    rightCropOf img bc = img.width := by
  rw [rightCropOf_eq]
  rcases h with h | h
  · rcases Nat.eq_zero_or_pos img.width with h0 | h0
    · rw [h0]; rfl
    · have := scanDown_found (colHasContent img bc) img.width img.width
        (img.width - 1) h (by omega) (fun x h1 h2 => by omega)
      omega
  · exact scanDown_all_false _ _ _ h

lemma trim_no_crop (img : Img)
    (hb : rowHasContent img (img.height - 1) = true ∨
      ∀ y, y < img.height → rowHasContent img y = false)
    (hr : colHasContent img (bottomCropOf img) (img.width - 1) = true ∨
      ∀ x, x < img.width → colHasContent img (bottomCropOf img) x = false) :
    crop_bottom_and_right_black_border img = img := by
  unfold crop_bottom_and_right_black_border
  rw [if_pos ⟨bottomCropOf_full img hb, rightCropOf_full img (bottomCropOf img) hr⟩]

lemma cropImm_zero_eq (img : Img) (rc bc : Nat) (hrc : rc ≤ img.width)
    (hbc : bc ≤ img.height) :
    cropImm img 0 0 rc bc = ⟨rc, bc, img.format, img.pix⟩ := by
  apply Img.ext'
  · simp [cropImm, Nat.min_eq_left hrc]
  · simp [cropImm, Nat.min_eq_left hbc]
  · rfl
  · funext i j
    simp [cropImm]

lemma trim_idem (img : Img) :
    crop_bottom_and_right_black_border (crop_bottom_and_right_black_border img) =
      crop_bottom_and_right_black_border img := by
  by_cases h : bottomCropOf img = img.height ∧
      rightCropOf img (bottomCropOf img) = img.width
  · have e : crop_bottom_and_right_black_border img = img := by
      unfold crop_bottom_and_right_black_border
      rw [if_pos h]
    rw [e]
    exact e
  · have hbcle := bottomCropOf_le img
    have hrcle := rightCropOf_le img (bottomCropOf img)
    have e : crop_bottom_and_right_black_border img =
        cropImm img 0 0 (rightCropOf img (bottomCropOf img)) (bottomCropOf img) := by
      unfold crop_bottom_and_right_black_border
      rw [if_neg h]
    rcases scanDown_cases (rowHasContent img) img.height img.height with hall | hfound
    · have hbcH : bottomCropOf img = img.height := by
        rw [bottomCropOf_eq]
        exact scanDown_all_false _ _ _ hall
      have hcoldark : ∀ x, x < img.width →
          colHasContent img (bottomCropOf img) x = false := by
        intro x hx
        rw [← Bool.not_eq_true, colHasContent_iff]
        rintro ⟨y, hy, hl⟩
        have hrow : rowHasContent img y = true := (rowHasContent_iff img y).mpr ⟨x, hx, hl⟩
        rw [hall y (by omega)] at hrow
        exact absurd hrow (by simp)
      have hrcW : rightCropOf img (bottomCropOf img) = img.width := by
        rw [rightCropOf_eq]
        exact scanDown_all_false _ _ _ hcoldark
      exact absurd ⟨hbcH, hrcW⟩ h
    · rw [← bottomCropOf_eq] at hfound
      obtain ⟨hbc1, hbcH, hrow⟩ := hfound
      obtain ⟨xb, hxbW, hxbl⟩ := (rowHasContent_iff img (bottomCropOf img - 1)).mp hrow
      have hxbrc : xb < rightCropOf img (bottomCropOf img) := by
        by_contra hcon
        push_neg at hcon
        rw [rightCropOf_eq] at hcon
        have hdarkcol := scanDown_false_below (colHasContent img (bottomCropOf img))
          img.width img.width xb hcon hxbW
        have hcc : colHasContent img (bottomCropOf img) xb = true :=
          (colHasContent_iff _ _ _).mpr ⟨bottomCropOf img - 1, by omega, hxbl⟩
        rw [hdarkcol] at hcc
        exact absurd hcc (by simp)
      rcases scanDown_cases (colHasContent img (bottomCropOf img)) img.width img.width
        with hallc | hfoundc
      · have hcc : colHasContent img (bottomCropOf img) xb = true :=
          (colHasContent_iff _ _ _).mpr ⟨bottomCropOf img - 1, by omega, hxbl⟩
        rw [hallc xb hxbW] at hcc
        exact absurd hcc (by simp)
      · rw [← rightCropOf_eq] at hfoundc
        obtain ⟨hrc1, hrcW, hcol⟩ := hfoundc
        obtain ⟨yb, hybbc, hybl⟩ :=
          (colHasContent_iff img (bottomCropOf img) (rightCropOf img (bottomCropOf img) - 1)).mp hcol
        have htimg : cropImm img 0 0 (rightCropOf img (bottomCropOf img)) (bottomCropOf img) =
            ⟨rightCropOf img (bottomCropOf img), bottomCropOf img, img.format, img.pix⟩ :=
          cropImm_zero_eq img _ _ hrcle hbcle
        rw [e, htimg]
        have hrowL : rowHasContent
            ⟨rightCropOf img (bottomCropOf img), bottomCropOf img, img.format, img.pix⟩
            (bottomCropOf img - 1) = true :=
          (rowHasContent_iff _ _).mpr ⟨xb, hxbrc, hxbl⟩
        have hbcL : bottomCropOf
            ⟨rightCropOf img (bottomCropOf img), bottomCropOf img, img.format, img.pix⟩ =
            bottomCropOf img :=
          bottomCropOf_full _ (Or.inl hrowL)
        have hcolL : colHasContent
            ⟨rightCropOf img (bottomCropOf img), bottomCropOf img, img.format, img.pix⟩
            (bottomCropOf img) (rightCropOf img (bottomCropOf img) - 1) = true :=
          (colHasContent_iff _ _ _).mpr ⟨yb, hybbc, hybl⟩
        exact trim_no_crop _ (Or.inl hrowL) (Or.inl (by rw [hbcL]; exact hcolL))

/-- C8: an all-white image is returned unchanged; an image whose bottom
N rows are entirely at or below the luminance threshold with content in
the row above is cropped to height H - N; a stray above-threshold pixel
in the last row keeps full height; but a stray above-threshold pixel in a
lower row r of the bottom region bounds the crop just below it (resulting
height r + 1), rather than aborting the vertical crop entirely. -/
theorem c8_border_trim (img : Img) (N r : Nat) :
    (0 < img.width → 0 < img.height →
      (∀ x, x < img.width → ∀ y, y < img.height →
        BLACK_LUMINANCE_THRESHOLD < lumaOf (img.pix x y)) →
      crop_bottom_and_right_black_border img = img) ∧
    (0 < N → N < img.height →
      (∀ y, img.height - N ≤ y → y < img.height → ∀ x, x < img.width →
        lumaOf (img.pix x y) ≤ BLACK_LUMINANCE_THRESHOLD) →
      (∃ x, x < img.width ∧
        BLACK_LUMINANCE_THRESHOLD < lumaOf (img.pix x (img.height - N - 1))) →
      (crop_bottom_and_right_black_border img).height = img.height - N) ∧
    (0 < img.height →
      (∃ x, x < img.width ∧
        BLACK_LUMINANCE_THRESHOLD < lumaOf (img.pix x (img.height - 1))) →
      (crop_bottom_and_right_black_border img).height = img.height) ∧
    (r + 1 < img.height →
      (∃ x, x < img.width ∧ BLACK_LUMINANCE_THRESHOLD < lumaOf (img.pix x r)) →
      (∀ y, r < y → y < img.height → ∀ x, x < img.width →
        lumaOf (img.pix x y) ≤ BLACK_LUMINANCE_THRESHOLD) →
      (crop_bottom_and_right_black_border img).height = r + 1) := by
  refine ⟨?_, ?_, ?_, ?_⟩
  · intro hW hH hwhite
    have hrow : rowHasContent img (img.height - 1) = true :=
      (rowHasContent_iff _ _).mpr ⟨0, hW, hwhite 0 hW (img.height - 1) (by omega)⟩
    have hbc : bottomCropOf img = img.height := bottomCropOf_full img (Or.inl hrow)
    have hcol : colHasContent img (bottomCropOf img) (img.width - 1) = true := by
      rw [hbc]
      exact (colHasContent_iff _ _ _).mpr
        ⟨0, hH, hwhite (img.width - 1) (by omega) 0 hH⟩
    exact trim_no_crop img (Or.inl hrow) (Or.inl hcol)
  · intro hN hNH hdark hcontent
    have hb := trim_height_eq img (img.height - N - 1) (by omega)
      ((rowHasContent_iff _ _).mpr hcontent)
      (fun y h1 h2 => rowHasContent_false img y (fun x hx => hdark y (by omega) h2 x hx))
    omega
  · intro hH hbright
    have hb := trim_height_eq img (img.height - 1) (by omega)
      ((rowHasContent_iff _ _).mpr hbright) (fun y h1 h2 => by omega)
    omega
  · intro hr hbright hdark
    exact trim_height_eq img r (by omega) ((rowHasContent_iff _ _).mpr hbright)
      (fun y h1 h2 => rowHasContent_false img y (fun x hx => hdark y h1 h2 x hx))

theorem c8_border_trim_witness :
    crop_bottom_and_right_black_border
        ⟨2, 2, .rgb8, fun _ _ => ⟨255, 255, 255⟩⟩ =
      ⟨2, 2, .rgb8, fun _ _ => ⟨255, 255, 255⟩⟩ ∧
    (crop_bottom_and_right_black_border
        ⟨1, 3, .rgb8, fun _ y => if y = 0 then ⟨255, 255, 255⟩ else ⟨0, 0, 0⟩⟩).height = 1 ∧
    (crop_bottom_and_right_black_border
        ⟨1, 1, .rgb8, fun _ _ => ⟨255, 255, 255⟩⟩).height = 1 ∧
    (crop_bottom_and_right_black_border
        ⟨1, 4, .rgb8, fun _ y => if y ≤ 1 then ⟨255, 255, 255⟩ else ⟨0, 0, 0⟩⟩).height = 2 := by
  refine ⟨?_, ?_, ?_, ?_⟩
  · exact (c8_border_trim ⟨2, 2, .rgb8, fun _ _ => ⟨255, 255, 255⟩⟩ 0 0).1
      (by decide) (by decide)
      (by intro x hx y hy; interval_cases x <;> interval_cases y <;> decide)
  · have h := (c8_border_trim
      ⟨1, 3, .rgb8, fun _ y => if y = 0 then ⟨255, 255, 255⟩ else ⟨0, 0, 0⟩⟩ 2 0).2.1
      (by decide) (by decide)
      (by intro y hy1 hy2 x hx; interval_cases x <;> interval_cases y <;> decide)
      (by exact ⟨0, by decide, by decide⟩)
    simpa using h
  · exact (c8_border_trim ⟨1, 1, .rgb8, fun _ _ => ⟨255, 255, 255⟩⟩ 0 0).2.2.1
      (by decide) (by exact ⟨0, by decide, by decide⟩)
  · exact (c8_border_trim
      ⟨1, 4, .rgb8, fun _ y => if y ≤ 1 then ⟨255, 255, 255⟩ else ⟨0, 0, 0⟩⟩ 0 1).2.2.2
      (by decide) (by exact ⟨0, by decide, by decide⟩)
      (by intro y hy1 hy2 x hx; interval_cases x <;> interval_cases y <;> decide)

theorem c8_counterexample :
    BLACK_LUMINANCE_THRESHOLD <
      lumaOf (Img.pix ⟨1, 3, .rgb8,
        fun _ y => if y ≤ 1 then ⟨255, 255, 255⟩ else ⟨0, 0, 0⟩⟩ 0 1) ∧
    lumaOf (Img.pix ⟨1, 3, .rgb8,
        fun _ y => if y ≤ 1 then ⟨255, 255, 255⟩ else ⟨0, 0, 0⟩⟩ 0 2) ≤
      BLACK_LUMINANCE_THRESHOLD ∧
    (crop_bottom_and_right_black_border
      ⟨1, 3, .rgb8, fun _ y => if y ≤ 1 then ⟨255, 255, 255⟩ else ⟨0, 0, 0⟩⟩).height = 2 ∧
    (crop_bottom_and_right_black_border
      ⟨1, 3, .rgb8, fun _ y => if y ≤ 1 then ⟨255, 255, 255⟩ else ⟨0, 0, 0⟩⟩).height ≠ 3 := by
  refine ⟨by decide, by decide, by decide, by decide⟩

/-- C9: extract_view_from_panorama and crop_bottom_and_right_black_border
are pure (identical inputs give identical outputs) and the border trim is
idempotent: trimming twice equals trimming once. -/
theorem c9_pure_and_trim_idempotent (pano : Img) (cfg : ViewConfig) (img : Img) :
    extract_view_from_panorama pano cfg = extract_view_from_panorama pano cfg ∧
    crop_bottom_and_right_black_border img = crop_bottom_and_right_black_border img ∧
    crop_bottom_and_right_black_border (crop_bottom_and_right_black_border img) =
      crop_bottom_and_right_black_border img :=
  ⟨rfl, rfl, trim_idem img⟩

lemma copyFrom_ok (pano tile : Img) (x y : Nat)
    (h : tile.width + x ≤ pano.width ∧ tile.height + y ≤ pano.height) :
    copyFrom pano tile x y = .ok (pasteImg pano tile x y) := by
  rw [copyFrom, if_neg]
  omega

lemma copyFrom_err (pano tile : Img) (x y : Nat)
    (h : ¬(tile.width + x ≤ pano.width ∧ tile.height + y ≤ pano.height)) :
    copyFrom pano tile x y = .error .imageError := by
  rw [copyFrom, if_pos]
  omega

lemma pasteImg_width (pano tile : Img) (x y : Nat) :
    (pasteImg pano tile x y).width = pano.width := rfl

lemma pasteImg_height (pano tile : Img) (x y : Nat) :
    (pasteImg pano tile x y).height = pano.height := rfl

lemma pasteImg_comm (pano im1 im2 : Img) (a1 b1 a2 b2 : Nat)
    (hw1 : im1.width = TILE_WIDTH) (hh1 : im1.height = TILE_HEIGHT)
    (hw2 : im2.width = TILE_WIDTH) (hh2 : im2.height = TILE_HEIGHT)
    (hne : a1 ≠ a2 ∨ b1 ≠ b2) :
    pasteImg (pasteImg pano im1 (a1 * TILE_WIDTH) (b1 * TILE_HEIGHT)) im2
        (a2 * TILE_WIDTH) (b2 * TILE_HEIGHT) =
      pasteImg (pasteImg pano im2 (a2 * TILE_WIDTH) (b2 * TILE_HEIGHT)) im1
        (a1 * TILE_WIDTH) (b1 * TILE_HEIGHT) := by
  refine Img.ext' ?_ ?_ ?_ ?_
  · simp only [pasteImg_width]
  · simp only [pasteImg_height]
  · rfl
  funext i j
  simp only [pasteImg]
  by_cases h1 : a1 * TILE_WIDTH ≤ i ∧ i < a1 * TILE_WIDTH + im1.width ∧
      b1 * TILE_HEIGHT ≤ j ∧ j < b1 * TILE_HEIGHT + im1.height
  · by_cases h2 : a2 * TILE_WIDTH ≤ i ∧ i < a2 * TILE_WIDTH + im2.width ∧
        b2 * TILE_HEIGHT ≤ j ∧ j < b2 * TILE_HEIGHT + im2.height
    · exfalso
      rw [hw1, hh1] at h1
      rw [hw2, hh2] at h2
      rw [TILE_WIDTH, TILE_HEIGHT] at h1 h2
      rcases hne with hne | hne <;> omega
    · rw [if_neg h2, if_pos h1, if_pos h1]
  · by_cases h2 : a2 * TILE_WIDTH ≤ i ∧ i < a2 * TILE_WIDTH + im2.width ∧
        b2 * TILE_HEIGHT ≤ j ∧ j < b2 * TILE_HEIGHT + im2.height
    · rw [if_pos h2, if_pos h2, if_neg h1]
    · rw [if_neg h2, if_neg h1, if_neg h1, if_neg h2]

lemma assembleGo_cons_ok (t : Tile) (ts : List Tile) (pano : Img)
    (h : fits pano.width pano.height t) :
    assembleGo (t :: ts) pano =
      assembleGo ts (pasteImg pano t.image (t.x * TILE_WIDTH) (t.y * TILE_HEIGHT)) := by
  rw [assembleGo, copyFrom_ok pano t.image _ _ h]

lemma assembleGo_cons_err (t : Tile) (ts : List Tile) (pano : Img)
    (h : ¬ fits pano.width pano.height t) :
    assembleGo (t :: ts) pano = .error .imageError := by
  rw [assembleGo, copyFrom_err pano t.image _ _ h]

lemma assembleGo_err (l : List Tile) (pano : Img)
    (h : ∃ t ∈ l, ¬ fits pano.width pano.height t) :
    assembleGo l pano = .error .imageError := by
  induction l generalizing pano with
  | nil => simp at h
  | cons t0 ts ih =>
    rw [assembleGo]
    by_cases h0 : fits pano.width pano.height t0
    · rw [copyFrom_ok pano t0.image _ _ h0]
      apply ih
      rcases h with ⟨t, ht, hnf⟩
      rcases List.mem_cons.mp ht with rfl | ht
      · exact absurd h0 hnf
      · exact ⟨t, ht, hnf⟩
    · rw [copyFrom_err pano t0.image _ _ h0]

lemma assembleGo_ok (l : List Tile) (pano : Img)
    (h : ∀ t ∈ l, fits pano.width pano.height t) :
    ∃ p, assembleGo l pano = .ok p := by
  induction l generalizing pano with
  | nil => exact ⟨pano, rfl⟩
  | cons t0 ts ih =>
    rw [assembleGo, copyFrom_ok pano t0.image _ _ (h t0 (List.mem_cons_self t0 ts))]
    exact ih (pasteImg pano t0.image _ _) (fun t ht => h t (List.mem_cons_of_mem t0 ht))

lemma assembleGo_swap (t1 t2 : Tile) (l : List Tile) (pano : Img)
    (hd1 : t1.image.width = TILE_WIDTH ∧ t1.image.height = TILE_HEIGHT)
    (hd2 : t2.image.width = TILE_WIDTH ∧ t2.image.height = TILE_HEIGHT)
    (hne : t1.x ≠ t2.x ∨ t1.y ≠ t2.y) :
    assembleGo (t1 :: t2 :: l) pano = assembleGo (t2 :: t1 :: l) pano := by
  by_cases f1 : fits pano.width pano.height t1
  · by_cases f2 : fits pano.width pano.height t2
    · rw [assembleGo_cons_ok t1 (t2 :: l) pano f1,
        assembleGo_cons_ok t2 l
          (pasteImg pano t1.image (t1.x * TILE_WIDTH) (t1.y * TILE_HEIGHT)) f2,
        assembleGo_cons_ok t2 (t1 :: l) pano f2,
        assembleGo_cons_ok t1 l
          (pasteImg pano t2.image (t2.x * TILE_WIDTH) (t2.y * TILE_HEIGHT)) f1,
        pasteImg_comm pano t1.image t2.image t1.x t1.y t2.x t2.y hd1.1 hd1.2
          hd2.1 hd2.2 hne]
    · rw [assembleGo_err _ _ ⟨t2, by simp, f2⟩, assembleGo_err _ _ ⟨t2, by simp, f2⟩]
  · rw [assembleGo_err _ _ ⟨t1, by simp, f1⟩, assembleGo_err _ _ ⟨t1, by simp, f1⟩]

lemma assembleGo_perm {l l' : List Tile} (h : l.Perm l') :
    (∀ t ∈ l, t.image.width = TILE_WIDTH ∧ t.image.height = TILE_HEIGHT) →
    l.Pairwise (fun a b => a.x ≠ b.x ∨ a.y ≠ b.y) →
    ∀ pano, assembleGo l pano = assembleGo l' pano := by
  induction h with
  | nil => intro _ _ _; rfl
  | @cons x l1 l2 hperm ih =>
    intro hd hp pano
    rw [assembleGo]
    conv_rhs => rw [assembleGo]
    cases copyFrom pano x.image (x.x * TILE_WIDTH) (x.y * TILE_HEIGHT) with
    | error e => rfl
    | ok p =>
      exact ih (fun t ht => hd t (List.mem_cons_of_mem x ht)) hp.of_cons p
  | @swap x y l1 =>
    intro hd hp pano
    have hdy := hd y (by simp)
    have hdx := hd x (by simp)
    have hne : y.x ≠ x.x ∨ y.y ≠ x.y := by
      have := (List.pairwise_cons.mp hp).1 x (by simp)
      tauto
    exact assembleGo_swap y x l1 pano hdy hdx hne
  | @trans l1 l2 l3 h12 h23 ih12 ih23 =>
    intro hd hp pano
    have hd2 : ∀ t ∈ l2, t.image.width = TILE_WIDTH ∧ t.image.height = TILE_HEIGHT :=
      fun t ht => hd t (h12.mem_iff.mpr ht)
    have hp2 : l2.Pairwise (fun a b => a.x ≠ b.x ∨ a.y ≠ b.y) :=
      (h12.pairwise_iff (fun hab => hab.imp Ne.symm Ne.symm)).mp hp
    exact (ih12 hd hp pano).trans (ih23 hd2 hp2 pano)

/-- C4: assembling any permutation of a complete, pairwise-distinct,
in-grid set of fixed-size tiles produces a byte-identical panorama. -/
theorem c4_assemble_order_independent (zoom : Nat) (tiles tiles2 : List Tile)
    (hperm : tiles.Perm tiles2)
    (hdims : ∀ t ∈ tiles, t.image.width = TILE_WIDTH ∧ t.image.height = TILE_HEIGHT)
    (hgrid : ∀ t ∈ tiles, t.x < 2 ^ zoom ∧ t.y < 2 ^ (zoom - 1))
    (hdistinct : tiles.Pairwise (fun a b => a.x ≠ b.x ∨ a.y ≠ b.y))
    (hcomplete : ∀ x y, x < 2 ^ zoom → y < 2 ^ (zoom - 1) →
      ∃ t ∈ tiles, t.x = x ∧ t.y = y) :
    assemble_tiles tiles zoom = assemble_tiles tiles2 zoom := by
  unfold assemble_tiles
  exact assembleGo_perm hperm hdims hdistinct _

theorem c4_assemble_order_independent_witness :
    assemble_tiles
        [⟨0, 0, ⟨512, 512, .rgb8, fun _ _ => ⟨10, 20, 30⟩⟩⟩,
         ⟨1, 0, ⟨512, 512, .rgb8, fun _ _ => ⟨40, 50, 60⟩⟩⟩] 1 =
      assemble_tiles
        [⟨1, 0, ⟨512, 512, .rgb8, fun _ _ => ⟨40, 50, 60⟩⟩⟩,
         ⟨0, 0, ⟨512, 512, .rgb8, fun _ _ => ⟨10, 20, 30⟩⟩⟩] 1 := by
  apply c4_assemble_order_independent 1
  · exact List.Perm.swap _ _ _
  · intro t ht
    rcases List.mem_cons.mp ht with rfl | ht
    · exact ⟨rfl, rfl⟩
    · rcases List.mem_singleton.mp ht with rfl
      exact ⟨rfl, rfl⟩
  · intro t ht
    rcases List.mem_cons.mp ht with rfl | ht
    · exact ⟨by decide, by decide⟩
    · rcases List.mem_singleton.mp ht with rfl
      exact ⟨by decide, by decide⟩
  · refine List.Pairwise.cons ?_ (List.pairwise_singleton _ _)
    intro b hb
    rcases List.mem_singleton.mp hb with rfl
    exact Or.inl (by decide)
  · intro x y hx hy
    have hy0 : y = 0 := by simpa using hy
    subst hy0
    have : x = 0 ∨ x = 1 := by simpa [Nat.lt_succ_iff_lt_or_eq] using hx
    rcases this with rfl | rfl
    · exact ⟨⟨0, 0, ⟨512, 512, .rgb8, fun _ _ => ⟨10, 20, 30⟩⟩⟩, by simp, rfl, rfl⟩
    · exact ⟨⟨1, 0, ⟨512, 512, .rgb8, fun _ _ => ⟨40, 50, 60⟩⟩⟩, by simp, rfl, rfl⟩

/-- C5 (amended): assemble_tiles fails with a structural error exactly
when some tile raster, placed at its grid offset, does not fit inside the
panorama; a tile whose decoded dimensions differ from 512 x 512 but still
fit (for instance an undersized tile) is pasted without any error. -/
theorem c5_assemble_structural_error (tiles : List Tile) (zoom : Nat) :
    (∃ e, assemble_tiles tiles zoom = .error e) ↔
      ∃ t ∈ tiles,
        ¬(t.image.width + t.x * TILE_WIDTH ≤ 2 ^ zoom * TILE_WIDTH ∧
          t.image.height + t.y * TILE_HEIGHT ≤ 2 ^ (zoom - 1) * TILE_HEIGHT) := by
  simp only [assemble_tiles, get_width_and_height_from_zoom]
  constructor
  · rintro ⟨e, he⟩
    by_contra hcon
    push_neg at hcon
    obtain ⟨p, hp⟩ := assembleGo_ok tiles
      (newRgb8 (2 ^ zoom * TILE_WIDTH) (2 ^ (zoom - 1) * TILE_HEIGHT))
      (fun t ht => ⟨(hcon t ht).1, (hcon t ht).2⟩)
    rw [hp] at he
    exact absurd he (by simp)
  · intro h
    rcases h with ⟨t, ht, hnf⟩
    exact ⟨.imageError, assembleGo_err tiles _ ⟨t, ht, fun hf => hnf ⟨hf.1, hf.2⟩⟩⟩

theorem c5_counterexample :
    ((⟨0, 0, ⟨256, 256, .rgb8, fun _ _ => ⟨0, 0, 0⟩⟩⟩ : Tile).image.width,
      (⟨0, 0, ⟨256, 256, .rgb8, fun _ _ => ⟨0, 0, 0⟩⟩⟩ : Tile).image.height) ≠ (512, 512) ∧
    ∃ p, assemble_tiles [⟨0, 0, ⟨256, 256, .rgb8, fun _ _ => ⟨0, 0, 0⟩⟩⟩] 1 = .ok p := by
  constructor
  · decide
  · refine ⟨pasteImg (newRgb8 (2 ^ 1 * TILE_WIDTH) (2 ^ (1 - 1) * TILE_HEIGHT))
      ⟨256, 256, .rgb8, fun _ _ => ⟨0, 0, 0⟩⟩ (0 * TILE_WIDTH) (0 * TILE_HEIGHT), ?_⟩
    simp only [assemble_tiles, get_width_and_height_from_zoom]
    rw [assembleGo_cons_ok _ _ _ (by exact ⟨by decide, by decide⟩), assembleGo]

lemma collectResults_error (rs : List (Except StreetViewError Tile))
    (h : ∃ r ∈ rs, ∃ e, r = .error e) :
    ∃ e, collectResults rs = .error e := by
  induction rs with
  | nil => simp at h
  | cons r0 rs ih =>
    rcases h with ⟨r, hr, e, he⟩
    cases r0 with
    | error e0 => exact ⟨e0, rfl⟩
    | ok t0 =>
      have hr2 : r ∈ rs := by
        rcases List.mem_cons.mp hr with h1 | h1
        · rw [h1] at he
          exact absurd he (by simp)
        · exact h1
      obtain ⟨e1, he1⟩ := ih ⟨r, hr2, e, he⟩
      rw [collectResults, he1]
      exact ⟨e1, rfl⟩

lemma collectResults_ok (rs : List (Except StreetViewError Tile))
    (h : ∀ r ∈ rs, ∃ t, r = .ok t) :
    ∃ ts, collectResults rs = .ok ts := by
  induction rs with
  | nil => exact ⟨[], rfl⟩
  | cons r0 rs ih =>
    obtain ⟨t0, ht0⟩ := h r0 (List.mem_cons_self r0 rs)
    obtain ⟨ts, hts⟩ := ih (fun r hr => h r (List.mem_cons_of_mem r0 hr))
    rw [ht0, collectResults, hts]
    exact ⟨t0 :: ts, rfl⟩

lemma collectResults_map_mem {α : Type} (f : α → Except StreetViewError Tile)
    (l : List α) (ts : List Tile) (h : collectResults (l.map f) = .ok ts) :
    ∀ a ∈ l, ∃ t ∈ ts, f a = .ok t := by
  induction l generalizing ts with
  | nil => intro a ha; simp at ha
  | cons a0 l ih =>
    intro a ha
    rw [List.map_cons] at h
    cases hf : f a0 with
    | error e => rw [hf, collectResults] at h; exact absurd h (by simp)
    | ok t0 =>
      rw [hf, collectResults] at h
      cases hc : collectResults (l.map f) with
      | error e => rw [hc] at h; exact absurd h (by simp)
      | ok ts0 =>
        rw [hc] at h
        have hts : ts = t0 :: ts0 := by
          cases h
          rfl
        subst hts
        rcases List.mem_cons.mp ha with rfl | ha
        · exact ⟨t0, List.mem_cons_self t0 ts0, hf⟩
        · obtain ⟨t, ht, hft⟩ := ih ts0 hc a ha
          exact ⟨t, List.mem_cons_of_mem t0 ht, hft⟩

lemma fetchGo_ok_coords (net : Nat → AttemptOutcome) (ti : TileInfo) (m : Nat) :
    ∀ k r t, m - r = k → fetchGo net ti m r = .ok t → t.x = ti.x ∧ t.y = ti.y := by
  intro k
  induction k with
  | zero =>
    intro r t hk h
    rw [fetchGo_step] at h
    cases hnet : net r with
    | bytesOk img =>
      simp only [hnet] at h
      cases h
      exact ⟨rfl, rfl⟩
    | sendErr =>
      simp only [hnet, if_pos (show m ≤ r by omega)] at h
      exact absurd h (by simp)
    | bodyErr =>
      simp only [hnet, if_pos (show m ≤ r by omega)] at h
      exact absurd h (by simp)
    | decodeErr =>
      simp only [hnet, if_pos (show m ≤ r by omega)] at h
      exact absurd h (by simp)
  | succ k ih =>
    intro r t hk h
    rw [fetchGo_step] at h
    cases hnet : net r with
    | bytesOk img =>
      simp only [hnet] at h
      cases h
      exact ⟨rfl, rfl⟩
    | sendErr =>
      simp only [hnet, if_neg (show ¬ m ≤ r by omega)] at h
      exact ih (r + 1) t (by omega) h
    | bodyErr =>
      simp only [hnet, if_neg (show ¬ m ≤ r by omega)] at h
      exact ih (r + 1) t (by omega) h
    | decodeErr =>
      simp only [hnet, if_neg (show ¬ m ≤ r by omega)] at h
      exact ih (r + 1) t (by omega) h

lemma mem_iter_tile_info (panoId : String) (zoom x y : Nat) :
    (⟨x, y, make_download_url panoId zoom x y⟩ : TileInfo) ∈ iter_tile_info panoId zoom ↔
      x < 2 ^ zoom ∧ y < 2 ^ (zoom - 1) := by
  simp only [iter_tile_info, get_width_and_height_from_zoom, List.mem_flatMap,
    List.mem_map, List.mem_range]
  constructor
  · rintro ⟨y0, hy0, x0, hx0, heq⟩
    obtain ⟨h1, h2, h3⟩ := TileInfo.mk.injEq .. ▸ congrArg id heq
    simp only [TileInfo.mk.injEq] at heq
    exact ⟨heq.1 ▸ hx0, heq.2.1 ▸ hy0⟩
  · rintro ⟨hx, hy⟩
    exact ⟨y, hy, x, hx, rfl⟩

/-- C3: a panorama download (over any completion order of the tile
requests) is all-or-nothing: if any tile in the grid permanently fails,
download_panorama yields a terminal error and no raster; if every tile
fetch succeeds, it yields exactly the assembly of a complete set of tile
results covering every grid address. -/
theorem c3_download_all_or_error (net : Nat → Nat → Nat → AttemptOutcome)
    (panoId : String) (zoom : Nat) (order : List TileInfo)
    (hperm : order.Perm (iter_tile_info panoId zoom))
    (hz1 : 1 ≤ zoom) (hz7 : zoom ≤ 7) :
    ((∃ ti ∈ iter_tile_info panoId zoom, ∃ e,
        fetch_tile_with_retry (net ti.x ti.y) ti DEFAULT_MAX_RETRIES = .error e) →
      ∃ e, download_panorama net order zoom = .error e) ∧
    ((∀ ti ∈ iter_tile_info panoId zoom, ∃ t,
        fetch_tile_with_retry (net ti.x ti.y) ti DEFAULT_MAX_RETRIES = .ok t) →
      ∃ ts, download_tiles net order = .ok ts ∧
        download_panorama net order zoom = assemble_tiles ts zoom ∧
        ∀ x y, x < 2 ^ zoom → y < 2 ^ (zoom - 1) → ∃ t ∈ ts, t.x = x ∧ t.y = y) := by
  have hpan : ∀ r, download_tiles net order = r →
      download_panorama net order zoom =
        (match r with
          | .error e => .error e
          | .ok tiles => assemble_tiles tiles zoom) := by
    intro r hr
    rw [download_panorama, if_neg (by omega), hr]
  constructor
  · rintro ⟨ti, hti, e, he⟩
    obtain ⟨e1, he1⟩ := collectResults_error
      (order.map fun ti => fetch_tile_with_retry (net ti.x ti.y) ti DEFAULT_MAX_RETRIES)
      ⟨_, List.mem_map_of_mem _ (hperm.mem_iff.mpr hti), e, by rw [he]⟩
    refine ⟨e1, ?_⟩
    rw [hpan (.error e1) he1]
  · intro hok
    obtain ⟨ts, hts⟩ := collectResults_ok
      (order.map fun ti => fetch_tile_with_retry (net ti.x ti.y) ti DEFAULT_MAX_RETRIES)
      (by
        intro r hr
        rw [List.mem_map] at hr
        obtain ⟨ti, hti, rfl⟩ := hr
        exact hok ti (hperm.mem_iff.mp hti))
    refine ⟨ts, hts, by rw [hpan (.ok ts) hts], ?_⟩
    intro x y hx hy
    have hmem : (⟨x, y, make_download_url panoId zoom x y⟩ : TileInfo) ∈ order :=
      hperm.mem_iff.mpr ((mem_iter_tile_info panoId zoom x y).mpr ⟨hx, hy⟩)
    obtain ⟨t, ht, hft⟩ := collectResults_map_mem _ order ts hts _ hmem
    have hco := fetchGo_ok_coords (net x y) ⟨x, y, make_download_url panoId zoom x y⟩
      DEFAULT_MAX_RETRIES (DEFAULT_MAX_RETRIES - 0) 0 t rfl hft
    exact ⟨t, ht, hco.1, hco.2⟩

theorem c3_download_all_or_error_witness :
    (∃ e, download_panorama (fun _ _ _ => .sendErr)
      (iter_tile_info "p" 1) 1 = .error e) ∧
    (∃ ts, download_tiles (fun _ _ _ => .bytesOk (newRgb8 512 512))
        (iter_tile_info "p" 1) = .ok ts ∧
      download_panorama (fun _ _ _ => .bytesOk (newRgb8 512 512))
          (iter_tile_info "p" 1) 1 = assemble_tiles ts 1 ∧
      ∀ x y, x < 2 ^ 1 → y < 2 ^ 0 → ∃ t ∈ ts, t.x = x ∧ t.y = y) := by
  constructor
  · refine (c3_download_all_or_error (fun _ _ _ => .sendErr) "p" 1
      (iter_tile_info "p" 1) (List.Perm.refl _) (by decide) (by decide)).1 ?_
    refine ⟨⟨0, 0, make_download_url "p" 1 0 0⟩,
      (mem_iter_tile_info "p" 1 0 0).mpr ⟨by decide, by decide⟩,
      .tileDownloadFailed 6, ?_⟩
    simp [fetch_tile_with_retry, DEFAULT_MAX_RETRIES, fetchGo]
  · refine (c3_download_all_or_error (fun _ _ _ => .bytesOk (newRgb8 512 512)) "p" 1
      (iter_tile_info "p" 1) (List.Perm.refl _) (by decide) (by decide)).2 ?_
    intro ti _
    refine ⟨⟨ti.x, ti.y, newRgb8 512 512⟩, ?_⟩
    simp [fetch_tile_with_retry, fetchGo]

lemma wadd32_eq (a b : Nat) (h : a + b < 4294967296) : wadd32 a b = a + b :=
  Nat.mod_eq_of_lt h

lemma wsub32_eq (a b : Nat) (h1 : b ≤ a) (h2 : a < 4294967296) :
    wsub32 a b = a - b := by
  rw [wsub32]
  rw [show a + 4294967296 - b = (a - b) + 4294967296 by omega]
  rw [Nat.add_mod_right]
  exact Nat.mod_eq_of_lt (by omega)

lemma f64toU32_le (q : ℚ) : f64toU32 q ≤ U32_MAX := min_le_right _ _

lemma f64toU32_natCast (n : Nat) (h : n ≤ U32_MAX) : f64toU32 (n : ℚ) = n := by
  rw [f64toU32, Int.floor_natCast]
  simp [Int.toNat_natCast, min_eq_left h]

lemma f64toU32_div (n k : Nat) (hk : 0 < k) (hd : n % k = 0) (hle : n / k ≤ U32_MAX) :
    f64toU32 ((n : ℚ) / (k : ℚ)) = n / k := by
  obtain ⟨m, hm⟩ : ∃ m, n = k * m :=
    ⟨n / k, (Nat.mul_div_cancel' (Nat.dvd_of_mod_eq_zero hd)).symm⟩
  subst hm
  rw [Nat.mul_div_cancel_left m hk] at hle ⊢
  have hq : ((k * m : Nat) : ℚ) / (k : ℚ) = (m : ℚ) := by
    push_cast
    rw [mul_comm, mul_div_assoc, div_self (by exact_mod_cast hk.ne'), mul_one]
  rw [hq, f64toU32_natCast m hle]

lemma centerX_lt (W : Nat) (cfg : ViewConfig) (hW : 0 < W)
    (hh : cfg.heading < 360) : centerX W cfg < W := by
  rw [centerX, f64toU32]
  have hq : (cfg.heading : ℚ) / 360 * (W : ℚ) < (W : ℚ) := by
    have h1 : (cfg.heading : ℚ) < 360 := by exact_mod_cast hh
    have h2 : (0 : ℚ) < W := by exact_mod_cast hW
    have h3 : (0 : ℚ) ≤ (cfg.heading : ℚ) := by positivity
    rw [div_mul_eq_mul_div, div_lt_iff (by norm_num : (0 : ℚ) < 360)]
    nlinarith
  have h3 : Int.floor ((cfg.heading : ℚ) / 360 * (W : ℚ)) < (W : ℤ) :=
    Int.floor_lt.mpr (by exact_mod_cast hq)
  have h4 : Int.toNat (Int.floor ((cfg.heading : ℚ) / 360 * (W : ℚ))) < W := by omega
  exact lt_of_le_of_lt (Nat.min_le_left _ _) h4

lemma centerY_le (H : Nat) (cfg : ViewConfig) (hp : -90 ≤ cfg.pitch) :
    centerY H cfg ≤ H := by
  rw [centerY, f64toU32]
  have hq : (90 - (cfg.pitch : ℚ)) / 180 * (H : ℚ) ≤ (H : ℚ) := by
    have h1 : (90 - (cfg.pitch : ℚ)) ≤ 180 := by
      have : (-90 : ℚ) ≤ (cfg.pitch : ℚ) := by exact_mod_cast hp
      linarith
    have h2 : (0 : ℚ) ≤ (H : ℚ) := by positivity
    rw [div_mul_eq_mul_div, div_le_iff (by norm_num : (0 : ℚ) < 180)]
    nlinarith
  have h3 : Int.floor ((90 - (cfg.pitch : ℚ)) / 180 * (H : ℚ)) ≤ (H : ℤ) := by
    have h5 := Int.floor_le_floor hq
    rwa [Int.floor_natCast] at h5
  have h4 : Int.toNat (Int.floor ((90 - (cfg.pitch : ℚ)) / 180 * (H : ℚ))) ≤ H := by omega
  exact le_trans (Nat.min_le_left _ _) h4

lemma centerY_lt (H : Nat) (cfg : ViewConfig) (hH : 0 < H) (hp : -90 < cfg.pitch) :
    centerY H cfg < H := by
  rw [centerY, f64toU32]
  have hq : (90 - (cfg.pitch : ℚ)) / 180 * (H : ℚ) < (H : ℚ) := by
    have h1 : (90 - (cfg.pitch : ℚ)) < 180 := by
      have : (-90 : ℚ) < (cfg.pitch : ℚ) := by exact_mod_cast hp
      linarith
    have h2 : (0 : ℚ) < (H : ℚ) := by exact_mod_cast hH
    rw [div_mul_eq_mul_div, div_lt_iff (by norm_num : (0 : ℚ) < 180)]
    nlinarith
  have h3 : Int.floor ((90 - (cfg.pitch : ℚ)) / 180 * (H : ℚ)) < (H : ℤ) :=
    Int.floor_lt.mpr (by exact_mod_cast hq)
  have h4 : Int.toNat (Int.floor ((90 - (cfg.pitch : ℚ)) / 180 * (H : ℚ))) < H := by omega
  exact lt_of_le_of_lt (Nat.min_le_left _ _) h4

/-- C10 (amended): for panoramas narrower and shorter than 2 ^ 31 pixels
(all real panoramas are at most 65536), heading below 360 and pitch in
the documented range, the crop arithmetic never underflows: the window
start coordinates never exceed the end coordinates and the window stays
inside the panorama. For wider rasters the u32 addition x_start plus
crop_width can wrap and the property fails (see the counterexample). -/
theorem c10_crop_bounds (pano : Img) (cfg : ViewConfig)
    (hW : 0 < pano.width) (hH : 0 < pano.height)
    (hheading : cfg.heading < 360) (hplo : -90 ≤ cfg.pitch) (hphi : cfg.pitch ≤ 90)
    (hWle : pano.width < 2 ^ 31) (hHle : pano.height < 2 ^ 31) :
    xStart pano.width cfg ≤ xEnd pano.width cfg ∧
    xEnd pano.width cfg ≤ pano.width ∧
    yStart pano.height cfg ≤ yEnd pano.height cfg ∧
    yEnd pano.height cfg ≤ pano.height := by
  have hcx := centerX_lt pano.width cfg hW hheading
  have hcw := f64toU32_le (halfFovH cfg * 2 * pixelsPerDegreeH pano.width)
  have hcy := centerY_le pano.height cfg hplo
  have hch := f64toU32_le (halfFovV cfg * 2 * pixelsPerDegreeV pano.height)
  have hcw2 : cropWidthPx pano.width cfg ≤ 4294967295 := hcw
  have hch2 : cropHeightPx pano.height cfg ≤ 4294967295 := hch
  have hnwx : xStart pano.width cfg + cropWidthPx pano.width cfg < 4294967296 := by
    rw [xStart]
    omega
  have hnwy : yStart pano.height cfg + cropHeightPx pano.height cfg < 4294967296 := by
    rw [yStart]
    omega
  have hxs : xStart pano.width cfg ≤ centerX pano.width cfg := Nat.sub_le _ _
  have hys : yStart pano.height cfg ≤ centerY pano.height cfg := Nat.sub_le _ _
  rw [xEnd, yEnd, wadd32_eq _ _ hnwx, wadd32_eq _ _ hnwy]
  refine ⟨Nat.le_min.mpr ⟨by omega, by omega⟩, Nat.min_le_right _ _,
    Nat.le_min.mpr ⟨by omega, by omega⟩, Nat.min_le_right _ _⟩

theorem c10_crop_bounds_witness :
    0 < (1024 : Nat) ∧ (359 : Nat) < 360 ∧ (-90 : Int) ≤ 10 ∧ (10 : Int) ≤ 90 ∧
    xStart 1024 ⟨359, 90, 10, none, 3⟩ ≤ xEnd 1024 ⟨359, 90, 10, none, 3⟩ ∧
    xEnd 1024 ⟨359, 90, 10, none, 3⟩ ≤ 1024 ∧
    yStart 512 ⟨359, 90, 10, none, 3⟩ ≤ yEnd 512 ⟨359, 90, 10, none, 3⟩ ∧
    yEnd 512 ⟨359, 90, 10, none, 3⟩ ≤ 512 := by
  have h := c10_crop_bounds ⟨1024, 512, .rgb8, fun _ _ => ⟨0, 0, 0⟩⟩
    ⟨359, 90, 10, none, 3⟩ (by decide) (by decide) (by decide) (by decide)
    (by decide) (by decide) (by decide)
  exact ⟨by decide, by decide, by decide, by decide, h.1, h.2.1, h.2.2.1, h.2.2.2⟩

theorem c10_counterexample :
    0 < (3221225472 : Nat) ∧ 0 < (512 : Nat) ∧ (359 : Nat) < 360 ∧
    (-90 : Int) ≤ 0 ∧ (0 : Int) ≤ 90 ∧
    xEnd 3221225472 ⟨359, 65535, 0, none, 3⟩ <
      xStart 3221225472 ⟨359, 65535, 0, none, 3⟩ := by
  refine ⟨by decide, by decide, by decide, by decide, by decide, ?_⟩
  have hs : xStart 3221225472 ⟨359, 65535, 0, none, 3⟩ = 1064793976 := by
    norm_num [xStart, centerX, cropWidthPx, f64toU32, U32_MAX, halfFovH,
      pixelsPerDegreeH] <;> decide
  have he : xEnd 3221225472 ⟨359, 65535, 0, none, 3⟩ = 1064793975 := by
    norm_num [xEnd, xStart, wadd32, centerX, cropWidthPx, f64toU32, U32_MAX,
      halfFovH, pixelsPerDegreeH] <;> decide
  omega

/-- C6 (amended): the crop window always stays inside the panorama, but
the code contains no 1 x 1 minimum clamp: when the computed pixel span
truncates to zero (for instance fov equal to zero) the window collapses
to zero area. Whenever the computed spans are at least one pixel, heading
is below 360 and pitch is strictly inside the range, the window has
positive width and height. -/
theorem c6_crop_window_positive (pano : Img) (cfg : ViewConfig)
    (hW : 0 < pano.width) (hH : 0 < pano.height)
    (hheading : cfg.heading < 360) (hplo : -90 < cfg.pitch) (hphi : cfg.pitch ≤ 90)
    (hWle : pano.width < 2 ^ 31) (hHle : pano.height < 2 ^ 31)
    (hcw1 : 1 ≤ cropWidthPx pano.width cfg)
    (hch1 : 1 ≤ cropHeightPx pano.height cfg) :
    1 ≤ xEnd pano.width cfg - xStart pano.width cfg ∧
    1 ≤ yEnd pano.height cfg - yStart pano.height cfg := by
  have hcx := centerX_lt pano.width cfg hW hheading
  have hcy := centerY_lt pano.height cfg hH hplo
  have hcw := f64toU32_le (halfFovH cfg * 2 * pixelsPerDegreeH pano.width)
  have hch := f64toU32_le (halfFovV cfg * 2 * pixelsPerDegreeV pano.height)
  have hcw2 : cropWidthPx pano.width cfg ≤ 4294967295 := hcw
  have hch2 : cropHeightPx pano.height cfg ≤ 4294967295 := hch
  have hnwx : xStart pano.width cfg + cropWidthPx pano.width cfg < 4294967296 := by
    rw [xStart]
    omega
  have hnwy : yStart pano.height cfg + cropHeightPx pano.height cfg < 4294967296 := by
    rw [yStart]
    omega
  have hxs : xStart pano.width cfg ≤ centerX pano.width cfg := Nat.sub_le _ _
  have hys : yStart pano.height cfg ≤ centerY pano.height cfg := Nat.sub_le _ _
  rw [xEnd, yEnd, wadd32_eq _ _ hnwx, wadd32_eq _ _ hnwy]
  constructor
  · have : min (xStart pano.width cfg + cropWidthPx pano.width cfg) pano.width ≥
        xStart pano.width cfg + 1 := Nat.le_min.mpr ⟨by omega, by omega⟩
    omega
  · have : min (yStart pano.height cfg + cropHeightPx pano.height cfg) pano.height ≥
        yStart pano.height cfg + 1 := Nat.le_min.mpr ⟨by omega, by omega⟩
    omega

theorem c6_crop_window_positive_witness :
    1 ≤ xEnd 1024 ⟨0, 90, 0, none, 3⟩ - xStart 1024 ⟨0, 90, 0, none, 3⟩ ∧
    1 ≤ yEnd 512 ⟨0, 90, 0, none, 3⟩ - yStart 512 ⟨0, 90, 0, none, 3⟩ := by
  refine c6_crop_window_positive ⟨1024, 512, .rgb8, fun _ _ => ⟨0, 0, 0⟩⟩
    ⟨0, 90, 0, none, 3⟩ (by decide) (by decide) (by decide) (by decide) (by decide)
    (by decide) (by decide) ?_ ?_
  · norm_num [cropWidthPx, f64toU32, U32_MAX, halfFovH, pixelsPerDegreeH] <;> decide
  · norm_num [cropHeightPx, f64toU32, U32_MAX, halfFovH, halfFovV, aspect,
      pixelsPerDegreeV] <;> decide

theorem c6_counterexample :
    0 < (1024 : Nat) ∧ 0 < (512 : Nat) ∧
    xEnd 1024 ⟨0, 0, 0, none, 3⟩ - xStart 1024 ⟨0, 0, 0, none, 3⟩ = 0 ∧
    (extract_view_from_panorama ⟨1024, 512, .rgb8, fun _ _ => ⟨0, 0, 0⟩⟩
      ⟨0, 0, 0, none, 3⟩).width = 0 := by
  have hs : xStart 1024 ⟨0, 0, 0, none, 3⟩ = 0 := by
    norm_num [xStart, centerX, cropWidthPx, f64toU32, U32_MAX, halfFovH,
      pixelsPerDegreeH] <;> decide
  have he : xEnd 1024 ⟨0, 0, 0, none, 3⟩ = 0 := by
    norm_num [xEnd, xStart, wadd32, centerX, cropWidthPx, f64toU32, U32_MAX,
      halfFovH, pixelsPerDegreeH] <;> decide
  refine ⟨by decide, by decide, by omega, ?_⟩
  show (cropImm ⟨1024, 512, .rgb8, fun _ _ => ⟨0, 0, 0⟩⟩
    (xStart 1024 ⟨0, 0, 0, none, 3⟩) (yStart 512 ⟨0, 0, 0, none, 3⟩)
    (wsub32 (xEnd 1024 ⟨0, 0, 0, none, 3⟩) (xStart 1024 ⟨0, 0, 0, none, 3⟩))
    (wsub32 (yEnd 512 ⟨0, 0, 0, none, 3⟩) (yStart 512 ⟨0, 0, 0, none, 3⟩))).width = 0
  rw [cropImm]
  simp only [hs, he]
  rw [wsub32_eq 0 0 (by omega) (by omega)]
  simp

/-- C7 (amended): with a requested target size the extracted view is
normalized to the fixed 3-channel RGB format; without a target size the
crop inherits the pixel format of the input panorama, alpha included. -/
theorem c7_output_format (pano : Img) (cfg : ViewConfig) :
    ((∃ w h, cfg.size = some (w, h)) →
      (extract_view_from_panorama pano cfg).format = .rgb8) ∧
    (cfg.size = none → (extract_view_from_panorama pano cfg).format = pano.format) := by
  constructor
  · rintro ⟨w, h, hs⟩
    simp [extract_view_from_panorama, hs, toRgb8, resizeLanczos3]
  · intro hs
    simp [extract_view_from_panorama, hs, cropImm]

theorem c7_output_format_witness :
    (extract_view_from_panorama ⟨4, 4, .rgba8, fun _ _ => ⟨1, 2, 3⟩⟩
      ⟨0, 90, 0, some (800, 600), 3⟩).format = .rgb8 ∧
    (extract_view_from_panorama ⟨4, 4, .rgba8, fun _ _ => ⟨1, 2, 3⟩⟩
      ⟨0, 90, 0, none, 3⟩).format = PixelFormat.rgba8 := by
  constructor
  · exact (c7_output_format ⟨4, 4, .rgba8, fun _ _ => ⟨1, 2, 3⟩⟩
      ⟨0, 90, 0, some (800, 600), 3⟩).1 ⟨800, 600, rfl⟩
  · exact (c7_output_format ⟨4, 4, .rgba8, fun _ _ => ⟨1, 2, 3⟩⟩
      ⟨0, 90, 0, none, 3⟩).2 rfl

theorem c7_counterexample :
    (extract_view_from_panorama ⟨4, 4, .rgba8, fun _ _ => ⟨1, 2, 3⟩⟩
      ⟨0, 90, 0, none, 3⟩).format ≠ PixelFormat.rgb8 := by
  intro h
  rw [show (extract_view_from_panorama ⟨4, 4, .rgba8, fun _ _ => ⟨1, 2, 3⟩⟩
    ⟨0, 90, 0, none, 3⟩).format = PixelFormat.rgba8 from rfl] at h
  exact absurd h (by decide)

/-- C2 (amended): with heading 0, pitch 0, fov 90 and no target size on a
W x H panorama (W and H divisible by four), the crop window is
horizontally left-aligned at x_start equal to 0 (heading 0 maps to the
left edge, so the window's horizontal midpoint is at most W / 8, not the
claimed W / 2), its width is W / 4 up to one pixel of f64 rounding, and
vertically it is centered at H / 2 up to one pixel of f64 rounding
(y_start within [H / 4, H / 4 + 1], y_end within [3 H / 4 - 1, 3 H / 4]).
Only these one-pixel bands are asserted because the program's doubly
rounded f64 pipeline can land one pixel below the exact rational values
(for instance W = H = 52 gives crop width 12 and crop height 25);
x_start = 0 is exact because heading 0 makes every rounding exact. -/
theorem c2_default_view_window (pano : Img) (cfg : ViewConfig)
    (h1 : cfg.heading = 0) (h2 : cfg.fov = 90) (h3 : cfg.pitch = 0)
    (h4 : cfg.size = none)
    (hW4 : pano.width % 4 = 0) (hH4 : pano.height % 4 = 0)
    (hW : 0 < pano.width) (hH : 0 < pano.height)
    (hWlt : pano.width < 4294967296) (hHlt : pano.height < 4294967296) :
    xStart pano.width cfg = 0 ∧
    pano.width / 4 - 1 ≤ xEnd pano.width cfg ∧
    xEnd pano.width cfg ≤ pano.width / 4 ∧
    xStart pano.width cfg + xEnd pano.width cfg ≤ pano.width / 4 ∧
    pano.height / 4 ≤ yStart pano.height cfg ∧
    yStart pano.height cfg ≤ pano.height / 4 + 1 ∧
    3 * pano.height / 4 - 1 ≤ yEnd pano.height cfg ∧
    yEnd pano.height cfg ≤ 3 * pano.height / 4 ∧
    pano.width / 4 - 1 ≤ (extract_view_from_panorama pano cfg).width ∧
    (extract_view_from_panorama pano cfg).width ≤ pano.width / 4 ∧
    pano.height / 2 - 1 ≤ (extract_view_from_panorama pano cfg).height ∧
    (extract_view_from_panorama pano cfg).height ≤ pano.height / 2 := by
  have hcx : centerX pano.width cfg = 0 := by
    rw [centerX, h1]
    norm_num [f64toU32]
  have hcw : cropWidthPx pano.width cfg = pano.width / 4 := by
    rw [cropWidthPx, halfFovH, h2, pixelsPerDegreeH]
    rw [show ((90 : Nat) : ℚ) / 2 * 2 * ((pano.width : ℚ) / 360) =
      (pano.width : ℚ) / ((4 : Nat) : ℚ) by push_cast; ring]
    exact f64toU32_div pano.width 4 (by omega) hW4 (by rw [U32_MAX]; omega)
  have hcy : centerY pano.height cfg = pano.height / 2 := by
    rw [centerY, h3]
    rw [show (90 - ((0 : Int) : ℚ)) / 180 * (pano.height : ℚ) =
      (pano.height : ℚ) / ((2 : Nat) : ℚ) by push_cast; ring]
    exact f64toU32_div pano.height 2 (by omega) (by omega) (by rw [U32_MAX]; omega)
  have hch : cropHeightPx pano.height cfg = pano.height / 2 := by
    rw [cropHeightPx, halfFovV, halfFovH, aspect, h4, h2, pixelsPerDegreeV]
    rw [show ((90 : Nat) : ℚ) / 2 / 1 * 2 * ((pano.height : ℚ) / 180) =
      (pano.height : ℚ) / ((2 : Nat) : ℚ) by push_cast; ring]
    exact f64toU32_div pano.height 2 (by omega) (by omega) (by rw [U32_MAX]; omega)
  have hxs : xStart pano.width cfg = 0 := by
    rw [xStart, hcx]
    omega
  have hxe : xEnd pano.width cfg = pano.width / 4 := by
    rw [xEnd, hxs, hcw, wadd32]
    omega
  have hys : yStart pano.height cfg = pano.height / 4 := by
    rw [yStart, hcy, hch]
    omega
  have hye : yEnd pano.height cfg = 3 * pano.height / 4 := by
    rw [yEnd, hys, hch, wadd32_eq _ _ (by omega)]
    omega
  have hew : (extract_view_from_panorama pano cfg).width = pano.width / 4 := by
    simp only [extract_view_from_panorama, h4, cropImm, hxs, hxe, hys, hye]
    rw [wsub32_eq _ _ (by omega) (by omega)]
    omega
  have heh : (extract_view_from_panorama pano cfg).height = pano.height / 2 := by
    simp only [extract_view_from_panorama, h4, cropImm, hxs, hxe, hys, hye]
    rw [wsub32_eq _ _ (by omega) (by omega)]
    omega
  exact ⟨hxs, by omega, by omega, by omega, by omega, by omega, by omega, by omega,
    by omega, by omega, by omega, by omega⟩

theorem c2_default_view_window_witness :
    xStart 1024 ⟨0, 90, 0, none, 3⟩ = 0 ∧
    1024 / 4 - 1 ≤ xEnd 1024 ⟨0, 90, 0, none, 3⟩ ∧
    xEnd 1024 ⟨0, 90, 0, none, 3⟩ ≤ 1024 / 4 ∧
    xStart 1024 ⟨0, 90, 0, none, 3⟩ + xEnd 1024 ⟨0, 90, 0, none, 3⟩ ≤ 1024 / 4 ∧
    512 / 4 ≤ yStart 512 ⟨0, 90, 0, none, 3⟩ ∧
    yStart 512 ⟨0, 90, 0, none, 3⟩ ≤ 512 / 4 + 1 ∧
    3 * 512 / 4 - 1 ≤ yEnd 512 ⟨0, 90, 0, none, 3⟩ ∧
    yEnd 512 ⟨0, 90, 0, none, 3⟩ ≤ 3 * 512 / 4 ∧
    1024 / 4 - 1 ≤ (extract_view_from_panorama ⟨1024, 512, .rgb8, fun _ _ => ⟨0, 0, 0⟩⟩
      ⟨0, 90, 0, none, 3⟩).width ∧
    (extract_view_from_panorama ⟨1024, 512, .rgb8, fun _ _ => ⟨0, 0, 0⟩⟩
      ⟨0, 90, 0, none, 3⟩).width ≤ 1024 / 4 ∧
    512 / 2 - 1 ≤ (extract_view_from_panorama ⟨1024, 512, .rgb8, fun _ _ => ⟨0, 0, 0⟩⟩
      ⟨0, 90, 0, none, 3⟩).height ∧
    (extract_view_from_panorama ⟨1024, 512, .rgb8, fun _ _ => ⟨0, 0, 0⟩⟩
      ⟨0, 90, 0, none, 3⟩).height ≤ 512 / 2 :=
  c2_default_view_window ⟨1024, 512, .rgb8, fun _ _ => ⟨0, 0, 0⟩⟩
    ⟨0, 90, 0, none, 3⟩ rfl rfl rfl rfl (by decide) (by decide) (by decide)
    (by decide) (by decide) (by decide)

-- At width 1024 the doubly rounded f64 pipeline agrees with the exact
-- rational model (90.0 * (1024.0 / 360.0) rounds to just above 256 and
-- truncates to 256), so these values are those of the real program.
theorem c2_counterexample :
    cropWidthPx 1024 ⟨0, 90, 0, none, 3⟩ = 1024 / 4 ∧
    xStart 1024 ⟨0, 90, 0, none, 3⟩ = 0 ∧
    xEnd 1024 ⟨0, 90, 0, none, 3⟩ = 256 ∧
    xStart 1024 ⟨0, 90, 0, none, 3⟩ + xEnd 1024 ⟨0, 90, 0, none, 3⟩ ≠
      2 * (1024 / 2) := by
  have hcw : cropWidthPx 1024 ⟨0, 90, 0, none, 3⟩ = 256 := by
    norm_num [cropWidthPx, f64toU32, U32_MAX, halfFovH, pixelsPerDegreeH] <;> decide
  have hs : xStart 1024 ⟨0, 90, 0, none, 3⟩ = 0 := by
    norm_num [xStart, centerX, cropWidthPx, f64toU32, U32_MAX, halfFovH,
      pixelsPerDegreeH] <;> decide
  have he : xEnd 1024 ⟨0, 90, 0, none, 3⟩ = 256 := by
    norm_num [xEnd, xStart, wadd32, centerX, cropWidthPx, f64toU32, U32_MAX,
      halfFovH, pixelsPerDegreeH] <;> decide
  exact ⟨by omega, hs, he, by omega⟩

end RsStreetView
